import Mathlib

/-!
Shallow embedding of the goldmark-markdown renderer (src/renderer.go) and of
the interfaces it relies on (the goldmark document tree, walker, buffered
writer and the option record), together with theorems settling the claims
about it.  Byte sequences are modelled as lists of characters.
-/

namespace GoldmarkMarkdown

/-- Byte sequences (sources, rendered output) are modelled as lists of
characters. -/
abbrev Bytes := List Char

/-- Modelled from the spec: a source line span, a byte range with a defined
length (goldmark text.Segment, with Value and Len accessors). -/
structure Segment where
  first : Nat
  last : Nat
deriving DecidableEq, Repr

/-- The bytes of the span inside the source. -/
def Segment.value (seg : Segment) (source : Bytes) : Bytes :=
  (source.drop seg.first).take (seg.last - seg.first)

/-- The byte length of the span. -/
def Segment.len (seg : Segment) : Nat :=
  seg.last - seg.first

/-- Modelled from the spec: the document tree restricted to the node kinds
this renderer registers handlers for.  Heading carries its level, its source
line spans and its inline children; Text carries a byte span and the
soft-line-break flag; the raw blocks carry their literal line spans,
FencedCodeBlock an optional language tag span and HTMLBlock an optional
closure line. -/
inductive Node : Type where
  | document (children : List Node)
  | heading (level : Nat) (lines : List Segment) (children : List Node)
  | paragraph (children : List Node)
  | text (seg : Segment) (softLineBreak : Bool)
  | thematicBreak
  | codeBlock (lines : List Segment)
  | fencedCodeBlock (language : Option Segment) (lines : List Segment)
  | htmlBlock (lines : List Segment) (closureLine : Option Segment)

/-- The ordered children a depth-first walk descends into. -/
def Node.childNodes : Node → List Node
  | .document cs => cs
  | .heading _ _ cs => cs
  | .paragraph cs => cs
  | _ => []

/-- Modelled from the spec: the heading-style option values; IsSetext holds
for the two underline styles. -/
inductive HeadingStyle : Type where
  | ATX
  | ATXSurround
  | Setext
  | FullWidthSetext
deriving DecidableEq, Repr

/-- True for the underline (Setext) heading styles. -/
def HeadingStyle.IsSetext : HeadingStyle → Bool
  | .Setext => true
  | .FullWidthSetext => true
  | _ => false

/-- Modelled from the spec: the minimum thematic-break length (3); configured
values below it are clamped up to it. -/
def ThematicBreakLengthMinimum : Nat := 3

/-- Modelled from the spec: the immutable configuration record read by the
renderer: heading style, thematic-break glyph index and length, and the
code-block indent byte sequence. -/
structure Config where
  headingStyle : HeadingStyle
  thematicBreakStyle : Fin 3
  thematicBreakLength : Nat
  indentStyle : Bytes

/-- Modelled from the spec: the default configuration (ATX headings, hyphen
thematic breaks of the minimum length, four-space indent). -/
def NewConfig : Config :=
  { headingStyle := .ATX
    thematicBreakStyle := 0
    thematicBreakLength := ThematicBreakLengthMinimum
    indentStyle := [' ', ' ', ' ', ' '] }

/-- The defaultWriter state: the bytes and length of the most recent write
routed through the Writer interface. -/
structure DefaultWriter where
  lastWriteBytes : Bytes
  lastWriteLen : Nat
deriving DecidableEq, Repr

/-- The zero value of the defaultWriter: no write has happened yet. -/
def initWriter : DefaultWriter :=
  { lastWriteBytes := [], lastWriteLen := 0 }

/-- The state threaded through a render: the sticky error of the underlying
buffered stream and the defaultWriter last-write memory. -/
structure RenderState where
  sinkErr : Option Unit
  d : DefaultWriter
deriving DecidableEq, Repr

/-- A clean initial render state: writable sink, zero-valued writer. -/
def cleanState : RenderState :=
  { sinkErr := none, d := initWriter }

/-- Modelled from the spec: a write on the underlying buffered stream.  It
returns the bytes that reach the output, the reported write count and the
write error; once the stream is in its error state every write emits
nothing and reports the error with a zero count. -/
def bufWrite (rs : RenderState) (bs : Bytes) : Bytes × Nat × Option Unit :=
  match rs.sinkErr with
  | some e => ([], 0, some e)
  | none => (bs, bs.length, none)

/-- defaultWriter.Write: remembers the source bytes and the reported write
count, passing the bytes to the buffered stream; the write error is
discarded (the source assigns it to the blank identifier). -/
def writerWrite (rs : RenderState) (source : Bytes) : Bytes × RenderState :=
  let r := bufWrite rs source
  (r.1, { rs with d := { lastWriteBytes := source, lastWriteLen := r.2.1 } })

/-- A fmt.Fprint-style write straight to the buffered stream: it bypasses
the Writer interface, so the last-write memory is untouched and the
returned error is discarded. -/
def fprint (rs : RenderState) (bs : Bytes) : Bytes × RenderState :=
  ((bufWrite rs bs).1, rs)

/-- strings.Repeat: count copies of a byte sequence, concatenated. -/
def strRepeat (s : Bytes) (count : Nat) : Bytes :=
  (List.replicate count s).flatten

/-- renderBlockSeparator: a blank line after a block exactly when the node
has a following sibling. -/
def renderBlockSeparator (rs : RenderState) (hasNext : Bool) : Bytes × RenderState :=
  if hasNext then writerWrite rs ['\n', '\n'] else ([], rs)

/-- renderDocument: on exit, write a single newline unless the last write
through the Writer interface already ended in one. -/
def renderDocument (rs : RenderState) (entering : Bool) :
    Bytes × RenderState × Option Unit :=
  if entering then ([], rs, none)
  else
    let b := rs.d.lastWriteBytes
    let l := rs.d.lastWriteLen
    if l = 0 ∨ b.getD (l - 1) '\x00' ≠ '\n' then
      let r := writerWrite rs ['\n']
      (r.1, r.2, none)
    else ([], rs, none)

/-- renderATXHeading: on entry a run of level-many hash characters, then a
space when the heading has children; on exit, for the surround style, a
space and the hash run again; then the block separator. -/
def renderATXHeading (cfg : Config) (level : Nat) (hasChildren : Bool)
    (rs : RenderState) (entering hasNext : Bool) :
    Bytes × RenderState × Option Unit :=
  if entering then
    let r1 := fprint rs (strRepeat ['#'] level)
    if hasChildren then
      let r2 := fprint r1.2 [' ']
      (r1.1 ++ r2.1, r2.2, none)
    else (r1.1, r1.2, none)
  else
    if cfg.headingStyle = .ATXSurround then
      let r1 := fprint rs (' ' :: strRepeat ['#'] level)
      let r2 := renderBlockSeparator r1.2 hasNext
      (r1.1 ++ r2.1, r2.2, none)
    else
      let r2 := renderBlockSeparator rs hasNext
      (r2.1, r2.2, none)

/-- The three-element underline-character table indexed by heading level in
renderSetextHeading. -/
def setextUnderlineChars : List Bytes := [[], ['='], ['-']]

/-- renderSetextHeading: nothing on entry; on exit a newline and an
underline whose character is picked by the level and whose width starts at
3 and, for the full-width style, grows to the longest source line; then
the block separator.  The source indexes the three-element table directly;
the defaulted lookup models that access and is in bounds whenever this
handler is reached through renderHeading. -/
def renderSetextHeading (cfg : Config) (level : Nat) (lines : List Segment)
    (rs : RenderState) (entering hasNext : Bool) :
    Bytes × RenderState × Option Unit :=
  if entering then ([], rs, none)
  else
    let underlineChar := setextUnderlineChars.getD level []
    let underlineWidth :=
      if cfg.headingStyle = .FullWidthSetext then
        lines.foldl (fun w line => if line.len > w then line.len else w) 3
      else 3
    let r1 := fprint rs ('\n' :: strRepeat underlineChar underlineWidth)
    let r2 := renderBlockSeparator r1.2 hasNext
    (r1.1 ++ r2.1, r2.2, none)

/-- renderHeading: empty headings and levels above 2 can only be ATX;
multiline headings can only be Setext; otherwise the configured style
decides. -/
def renderHeading (cfg : Config) (level : Nat) (lines : List Segment)
    (hasChildren : Bool) (rs : RenderState) (entering hasNext : Bool) :
    Bytes × RenderState × Option Unit :=
  if !hasChildren || decide (2 < level) then
    renderATXHeading cfg level hasChildren rs entering hasNext
  else if decide (1 < lines.length) then
    renderSetextHeading cfg level lines rs entering hasNext
  else if cfg.headingStyle.IsSetext then
    renderSetextHeading cfg level lines rs entering hasNext
  else
    renderATXHeading cfg level hasChildren rs entering hasNext

/-- The branch structure of renderHeading as a selector: true exactly when
the heading is dispatched to the Setext form. -/
def headingIsSetext (cfg : Config) (level : Nat) (lines : List Segment)
    (hasChildren : Bool) : Bool :=
  if !hasChildren || decide (2 < level) then false
  else if decide (1 < lines.length) then true
  else cfg.headingStyle.IsSetext

/-- renderParagraph: nothing on entry; the block separator on exit. -/
def renderParagraph (rs : RenderState) (entering hasNext : Bool) :
    Bytes × RenderState × Option Unit :=
  if entering then ([], rs, none)
  else
    let r := renderBlockSeparator rs hasNext
    (r.1, r.2, none)

/-- renderText: on entry the literal byte span, then a newline when the
node ends with a soft line break; nothing on exit. -/
def renderText (source : Bytes) (seg : Segment) (softLineBreak : Bool)
    (rs : RenderState) (entering : Bool) :
    Bytes × RenderState × Option Unit :=
  if entering then
    let r1 := writerWrite rs (seg.value source)
    if softLineBreak then
      let r2 := writerWrite r1.2 ['\n']
      (r1.1 ++ r2.1, r2.2, none)
    else (r1.1, r1.2, none)
  else ([], rs, none)

/-- The three-element glyph table indexed by the thematic-break style in
renderThematicBreak. -/
def breakChars : List Bytes := [['-'], ['*'], ['_']]

/-- renderThematicBreak: on entry the configured glyph repeated for the
configured length, clamped up to the minimum; the block separator on
exit.  The style index is a Fin 3, so the defaulted table lookup is always
in bounds. -/
def renderThematicBreak (cfg : Config) (rs : RenderState)
    (entering hasNext : Bool) : Bytes × RenderState × Option Unit :=
  if entering then
    let breakChar := breakChars.getD cfg.thematicBreakStyle.val []
    let breakLen :=
      if cfg.thematicBreakLength < ThematicBreakLengthMinimum then
        ThematicBreakLengthMinimum
      else cfg.thematicBreakLength
    let r := writerWrite rs (strRepeat breakChar breakLen)
    (r.1, r.2, none)
  else
    let r := renderBlockSeparator rs hasNext
    (r.1, r.2, none)

/-- The loop of renderCodeBlock: for every line, the indent bytes then the
literal line bytes, each through the Writer interface. -/
def writeIndentedLines (cfg : Config) (source : Bytes) (lines : List Segment)
    (rs : RenderState) : Bytes × RenderState :=
  match lines with
  | [] => ([], rs)
  | line :: rest =>
    let r1 := writerWrite rs cfg.indentStyle
    let r2 := writerWrite r1.2 (line.value source)
    let r3 := writeIndentedLines cfg source rest r2.2
    (r1.1 ++ r2.1 ++ r3.1, r3.2)

/-- The line loop shared by renderFencedCodeBlock and renderHTMLBlock: every
literal line span verbatim through the Writer interface. -/
def writeRawLines (source : Bytes) (lines : List Segment) (rs : RenderState) :
    Bytes × RenderState :=
  match lines with
  | [] => ([], rs)
  | line :: rest =>
    let r1 := writerWrite rs (line.value source)
    let r2 := writeRawLines source rest r1.2
    (r1.1 ++ r2.1, r2.2)

/-- renderCodeBlock: on entry every line prefixed by the indent bytes; the
block separator on exit. -/
def renderCodeBlock (cfg : Config) (source : Bytes) (lines : List Segment)
    (rs : RenderState) (entering hasNext : Bool) :
    Bytes × RenderState × Option Unit :=
  if entering then
    let r := writeIndentedLines cfg source lines rs
    (r.1, r.2, none)
  else
    let r := renderBlockSeparator rs hasNext
    (r.1, r.2, none)

/-- renderFencedCodeBlock: a three-backtick fence unconditionally at the
start of both calls; on entry additionally the language tag when present, a
newline and the literal lines; on exit the block separator. -/
def renderFencedCodeBlock (source : Bytes)
    (language : Option Segment) (lines : List Segment) (rs : RenderState)
    (entering hasNext : Bool) : Bytes × RenderState × Option Unit :=
  let r0 := writerWrite rs ['`', '`', '`']
  if entering then
    let r1 :=
      match language with
      | some lang => writerWrite r0.2 (lang.value source)
      | none => ([], r0.2)
    let r2 := writerWrite r1.2 ['\n']
    let r3 := writeRawLines source lines r2.2
    (r0.1 ++ r1.1 ++ r2.1 ++ r3.1, r3.2, none)
  else
    let r1 := renderBlockSeparator r0.2 hasNext
    (r0.1 ++ r1.1, r1.2, none)

/-- renderHTMLBlock: on entry every literal line verbatim; on exit the
closure line when the node has one, then the block separator. -/
def renderHTMLBlock (source : Bytes) (lines : List Segment)
    (closureLine : Option Segment) (rs : RenderState)
    (entering hasNext : Bool) : Bytes × RenderState × Option Unit :=
  if entering then
    let r := writeRawLines source lines rs
    (r.1, r.2, none)
  else
    let r1 :=
      match closureLine with
      | some closure => writerWrite rs (closure.value source)
      | none => ([], rs)
    let r2 := renderBlockSeparator r1.2 hasNext
    (r1.1 ++ r2.1, r2.2, none)

/-- The kind-indexed handler table: the handler registered for the kind of
the node, called with the entering flag and with whether the node has a
following sibling. -/
def dispatch (cfg : Config) (source : Bytes) (n : Node) (hasNext entering : Bool)
    (rs : RenderState) : Bytes × RenderState × Option Unit :=
  match n with
  | .document _ => renderDocument rs entering
  | .heading level lines cs =>
      renderHeading cfg level lines (!cs.isEmpty) rs entering hasNext
  | .paragraph _ => renderParagraph rs entering hasNext
  | .text seg softLineBreak => renderText source seg softLineBreak rs entering
  | .thematicBreak => renderThematicBreak cfg rs entering hasNext
  | .codeBlock lines => renderCodeBlock cfg source lines rs entering hasNext
  | .fencedCodeBlock language lines =>
      renderFencedCodeBlock source language lines rs entering hasNext
  | .htmlBlock lines closureLine =>
      renderHTMLBlock source lines closureLine rs entering hasNext

mutual

/-- Modelled from the spec: the depth-first walk of the registered node
renderer.  The handler runs on entry, then the children are walked, then
the handler runs on exit; a handler error stops the traversal at once and
becomes the outcome. -/
def walkNode (cfg : Config) (source : Bytes) (n : Node) (hasNext : Bool)
    (rs : RenderState) : Bytes × RenderState × Option Unit :=
  let r1 := dispatch cfg source n hasNext true rs
  match r1.2.2 with
  | some e => (r1.1, r1.2.1, some e)
  | none =>
    let r2 := walkChildren cfg source n.childNodes r1.2.1
    match r2.2.2 with
    | some e => (r1.1 ++ r2.1, r2.2.1, some e)
    | none =>
      let r3 := dispatch cfg source n hasNext false r2.2.1
      (r1.1 ++ r2.1 ++ r3.1, r3.2.1, r3.2.2)
termination_by 2 * sizeOf n + 1
decreasing_by
  cases n <;> simp [Node.childNodes] <;> omega

/-- Modelled from the spec: walking a child list in document order; each
child is told whether a following sibling exists, and a child error stops
the walk at once. -/
def walkChildren (cfg : Config) (source : Bytes) (cs : List Node)
    (rs : RenderState) : Bytes × RenderState × Option Unit :=
  match cs with
  | [] => ([], rs, none)
  | c :: rest =>
    let r1 := walkNode cfg source c (!rest.isEmpty) rs
    match r1.2.2 with
    | some e => (r1.1, r1.2.1, some e)
    | none =>
      let r2 := walkChildren cfg source rest r1.2.1
      (r1.1 ++ r2.1, r2.2.1, r2.2.2)
termination_by 2 * sizeOf cs
decreasing_by
  · simp
    omega
  · simp

end

/-- Modelled from the spec: a whole render pass: walk the root with a fresh
sink and a zero-valued writer; the root, as the tree root, has no following
sibling. -/
def render (cfg : Config) (source : Bytes) (root : Node) :
    Bytes × RenderState × Option Unit :=
  walkNode cfg source root false cleanState

/-- Which node kinds close with the block separator on exit: every
registered block kind except the document root (which, as the traversal
root, has no following sibling) and the inline text kind. -/
def separatedBlock : Node → Bool
  | .heading _ _ _ => true
  | .paragraph _ => true
  | .thematicBreak => true
  | .codeBlock _ => true
  | .fencedCodeBlock _ _ => true
  | .htmlBlock _ _ => true
  | .document _ => false
  | .text _ _ => false

theorem strRepeat_singleton (c : Char) (n : Nat) :
    strRepeat [c] n = List.replicate n c := by
  induction n with
  | zero => rfl
  | succ k ih =>
    simp [strRepeat, List.replicate_succ, List.flatten_cons] at ih ⊢

theorem writerWrite_sinkErr (rs : RenderState) (bs : Bytes) :
    (writerWrite rs bs).2.sinkErr = rs.sinkErr := rfl

theorem writerWrite_of_none (rs : RenderState) (bs : Bytes)
    (h : rs.sinkErr = none) :
    writerWrite rs bs = (bs, { rs with d := ⟨bs, bs.length⟩ }) := by
  simp [writerWrite, bufWrite, h]

theorem writerWrite_of_some (rs : RenderState) (bs : Bytes)
    (h : rs.sinkErr = some ()) :
    writerWrite rs bs = ([], { rs with d := ⟨bs, 0⟩ }) := by
  simp [writerWrite, bufWrite, h]

theorem fprint_of_none (rs : RenderState) (bs : Bytes) (h : rs.sinkErr = none) :
    fprint rs bs = (bs, rs) := by
  simp [fprint, bufWrite, h]

theorem fprint_of_some (rs : RenderState) (bs : Bytes)
    (h : rs.sinkErr = some ()) : fprint rs bs = ([], rs) := by
  simp [fprint, bufWrite, h]

theorem fprint_state (rs : RenderState) (bs : Bytes) : (fprint rs bs).2 = rs :=
  rfl

theorem writeRawLines_invariants (source : Bytes) (lines : List Segment) :
    ∀ rs : RenderState,
      (writeRawLines source lines rs).2.sinkErr = rs.sinkErr ∧
      (rs.sinkErr = some () → (writeRawLines source lines rs).1 = []) := by
  induction lines with
  | nil => intro rs; simp [writeRawLines]
  | cons line rest ih =>
    intro rs
    simp only [writeRawLines]
    constructor
    · rw [(ih _).1, writerWrite_sinkErr]
    · intro h
      rw [writerWrite_of_some rs _ h]
      have h2 : ({ rs with d := ⟨line.value source, 0⟩ } : RenderState).sinkErr
          = some () := h
      simp [writerWrite_of_some rs _ h, (ih _).2 h2]

theorem writeRawLines_of_none (source : Bytes) (lines : List Segment) :
    ∀ rs : RenderState, rs.sinkErr = none →
      (writeRawLines source lines rs).1 =
        (lines.map (fun line => line.value source)).flatten := by
  induction lines with
  | nil => intro rs _; simp [writeRawLines]
  | cons line rest ih =>
    intro rs h
    simp only [writeRawLines, writerWrite_of_none rs _ h]
    have h2 : ({ rs with d := ⟨line.value source, (line.value source).length⟩ }
        : RenderState).sinkErr = none := h
    simp [ih _ h2]

theorem writeIndentedLines_invariants (cfg : Config) (source : Bytes)
    (lines : List Segment) :
    ∀ rs : RenderState,
      (writeIndentedLines cfg source lines rs).2.sinkErr = rs.sinkErr ∧
      (rs.sinkErr = some () →
        (writeIndentedLines cfg source lines rs).1 = []) := by
  induction lines with
  | nil => intro rs; simp [writeIndentedLines]
  | cons line rest ih =>
    intro rs
    simp only [writeIndentedLines]
    constructor
    · rw [(ih _).1, writerWrite_sinkErr, writerWrite_sinkErr]
    · intro h
      rw [writerWrite_of_some rs _ h]
      have h2 : ({ rs with d := ⟨cfg.indentStyle, 0⟩ } : RenderState).sinkErr
          = some () := h
      rw [writerWrite_of_some _ _ h2]
      have h3 : ({ rs with d := ⟨line.value source, 0⟩ } : RenderState).sinkErr
          = some () := h
      simp [writerWrite_of_some rs _ h, writerWrite_of_some _ _ h2,
        (ih _).2 h3]

theorem dispatch_invariants (cfg : Config) (source : Bytes) (n : Node)
    (hasNext entering : Bool) (rs : RenderState) :
    (dispatch cfg source n hasNext entering rs).2.2 = none ∧
    (dispatch cfg source n hasNext entering rs).2.1.sinkErr = rs.sinkErr ∧
    (rs.sinkErr = some () →
      (dispatch cfg source n hasNext entering rs).1 = []) := by
  cases n <;>
    simp only [dispatch, renderDocument, renderHeading, renderATXHeading,
      renderSetextHeading, renderParagraph, renderText, renderThematicBreak,
      renderCodeBlock, renderFencedCodeBlock, renderHTMLBlock,
      renderBlockSeparator] <;>
    (repeat' split) <;>
    simp_all [writerWrite_sinkErr, fprint_state, writerWrite_of_some,
      fprint_of_some, writeRawLines_invariants, writeIndentedLines_invariants,
      writerWrite, bufWrite, fprint]

theorem walk_master (N : Nat) :
    (∀ n : Node, sizeOf n ≤ N →
      ∀ (cfg : Config) (source : Bytes) (hn : Bool) (rs : RenderState),
        (walkNode cfg source n hn rs).2.2 = none ∧
        (walkNode cfg source n hn rs).2.1.sinkErr = rs.sinkErr ∧
        (rs.sinkErr = some () → (walkNode cfg source n hn rs).1 = [])) ∧
    (∀ cs : List Node, sizeOf cs ≤ N →
      ∀ (cfg : Config) (source : Bytes) (rs : RenderState),
        (walkChildren cfg source cs rs).2.2 = none ∧
        (walkChildren cfg source cs rs).2.1.sinkErr = rs.sinkErr ∧
        (rs.sinkErr = some () → (walkChildren cfg source cs rs).1 = [])) := by
  induction N with
  | zero =>
    constructor
    · intro n hsz
      exact absurd hsz (by cases n <;> simp)
    · intro cs hsz
      exact absurd hsz (by cases cs <;> simp)
  | succ N ih =>
    constructor
    · intro n hsz cfg source hn rs
      have hcs : n.childNodes = [] ∨ sizeOf n.childNodes ≤ N := by
        cases n with
        | document cs => right; simp only [Node.childNodes]; simp at hsz; omega
        | heading level lines cs =>
            right; simp only [Node.childNodes]; simp at hsz; omega
        | paragraph cs => right; simp only [Node.childNodes]; simp at hsz; omega
        | text seg softLineBreak => left; rfl
        | thematicBreak => left; rfl
        | codeBlock lines => left; rfl
        | fencedCodeBlock language lines => left; rfl
        | htmlBlock lines closureLine => left; rfl
      have hchild : ∀ rs' : RenderState,
          (walkChildren cfg source n.childNodes rs').2.2 = none ∧
          (walkChildren cfg source n.childNodes rs').2.1.sinkErr = rs'.sinkErr ∧
          (rs'.sinkErr = some () →
            (walkChildren cfg source n.childNodes rs').1 = []) := by
        rcases hcs with hnil | hle
        · intro rs'; rw [hnil]; simp [walkChildren]
        · intro rs'; exact ih.2 _ hle cfg source rs'
      obtain ⟨herr1, hsink1, hemit1⟩ := dispatch_invariants cfg source n hn true rs
      obtain ⟨herr2, hsink2, hemit2⟩ :=
        hchild (dispatch cfg source n hn true rs).2.1
      obtain ⟨herr3, hsink3, hemit3⟩ := dispatch_invariants cfg source n hn false
        (walkChildren cfg source n.childNodes (dispatch cfg source n hn true rs).2.1).2.1
      simp only [walkNode, herr1, herr2]
      refine ⟨herr3, by rw [hsink3, hsink2, hsink1], ?_⟩
      intro hfail
      have h1 := hemit1 hfail
      have h2 := hemit2 (by rw [hsink1]; exact hfail)
      have h3 := hemit3 (by rw [hsink2, hsink1]; exact hfail)
      simp [h1, h2, h3]
    · intro cs hsz cfg source rs
      cases cs with
      | nil => simp [walkChildren]
      | cons c rest =>
        have hc : sizeOf c ≤ N := by simp at hsz; omega
        have hrest : sizeOf rest ≤ N := by simp at hsz; omega
        obtain ⟨herr1, hsink1, hemit1⟩ :=
          ih.1 c hc cfg source (!rest.isEmpty) rs
        obtain ⟨herr2, hsink2, hemit2⟩ := ih.2 rest hrest cfg source
          (walkNode cfg source c (!rest.isEmpty) rs).2.1
        simp only [walkChildren, herr1]
        refine ⟨herr2, by rw [hsink2, hsink1], ?_⟩
        intro hfail
        have h1 := hemit1 hfail
        have h2 := hemit2 (by rw [hsink1]; exact hfail)
        simp [h1, h2]

theorem walkNode_invariants (cfg : Config) (source : Bytes) (n : Node)
    (hn : Bool) (rs : RenderState) :
    (walkNode cfg source n hn rs).2.2 = none ∧
    (walkNode cfg source n hn rs).2.1.sinkErr = rs.sinkErr ∧
    (rs.sinkErr = some () → (walkNode cfg source n hn rs).1 = []) :=
  (walk_master (sizeOf n)).1 n le_rfl cfg source hn rs

theorem walkChildren_invariants (cfg : Config) (source : Bytes)
    (cs : List Node) (rs : RenderState) :
    (walkChildren cfg source cs rs).2.2 = none ∧
    (walkChildren cfg source cs rs).2.1.sinkErr = rs.sinkErr ∧
    (rs.sinkErr = some () → (walkChildren cfg source cs rs).1 = []) :=
  (walk_master (sizeOf cs)).2 cs le_rfl cfg source rs

/-- C1: for every heading node the rendered form is resolved in priority
order, first match wins: no children or level above 2 forces the ATX form
regardless of style; else a line span over more than one line forces the
Setext form regardless of style; otherwise the configured heading style
decides between the two forms. -/
theorem C1_heading_style_priority (cfg : Config) (level : Nat)
    (lines : List Segment) (hasChildren : Bool) (rs : RenderState)
    (entering hasNext : Bool) :
    ((hasChildren = false ∨ 2 < level) →
      renderHeading cfg level lines hasChildren rs entering hasNext =
        renderATXHeading cfg level hasChildren rs entering hasNext) ∧
    ((hasChildren = true ∧ level ≤ 2 ∧ 1 < lines.length) →
      renderHeading cfg level lines hasChildren rs entering hasNext =
        renderSetextHeading cfg level lines rs entering hasNext) ∧
    ((hasChildren = true ∧ level ≤ 2 ∧ lines.length ≤ 1) →
      renderHeading cfg level lines hasChildren rs entering hasNext =
        (if cfg.headingStyle.IsSetext then
          renderSetextHeading cfg level lines rs entering hasNext
        else renderATXHeading cfg level hasChildren rs entering hasNext)) := by
  refine ⟨?_, ?_, ?_⟩
  · rintro (h | h) <;> simp [renderHeading, h]
  · rintro ⟨h1, h2, h3⟩
    simp [renderHeading, h1, h3, Nat.not_lt.mpr h2]
  · rintro ⟨h1, h2, h3⟩
    simp [renderHeading, h1, Nat.not_lt.mpr h2, Nat.not_lt.mpr h3]

/-- Witness for C1: a two-line level-2 heading with children is dispatched
to the Setext form. -/
theorem C1_witness :
    ((true : Bool) = true ∧ 2 ≤ 2 ∧
      1 < ([⟨0, 1⟩, ⟨1, 2⟩] : List Segment).length) ∧
    renderHeading NewConfig 2 [⟨0, 1⟩, ⟨1, 2⟩] true cleanState true false =
      renderSetextHeading NewConfig 2 [⟨0, 1⟩, ⟨1, 2⟩] cleanState true false :=
  ⟨⟨rfl, by omega, by decide⟩,
    (C1_heading_style_priority NewConfig 2 [⟨0, 1⟩, ⟨1, 2⟩] true cleanState
      true false).2.1 ⟨rfl, by omega, by decide⟩⟩

/-- C10: the Setext underline-character lookup indexes the three-element
table by the heading level and is always in bounds: the Setext form is
reached through renderHeading only when the heading has children and its
level is at most 2, so the index is below the table length. -/
theorem C10_setext_index_in_bounds (cfg : Config) (level : Nat)
    (lines : List Segment) (hasChildren : Bool)
    (h : headingIsSetext cfg level lines hasChildren = true) :
    level < setextUnderlineChars.length ∧
    ∀ (rs : RenderState) (entering hasNext : Bool),
      renderHeading cfg level lines hasChildren rs entering hasNext =
        renderSetextHeading cfg level lines rs entering hasNext := by
  have hcond : hasChildren = true ∧ level ≤ 2 := by
    cases hb : hasChildren with
    | false => simp [headingIsSetext, hb] at h
    | true =>
      refine ⟨rfl, ?_⟩
      by_contra hl
      push_neg at hl
      simp [headingIsSetext, hl] at h
  obtain ⟨hb, hl⟩ := hcond
  have hnl : ¬2 < level := Nat.not_lt.mpr hl
  constructor
  · simp [setextUnderlineChars]
    omega
  · intro rs entering hasNext
    rcases Nat.lt_or_ge 1 lines.length with hlen | hlen
    · simp [renderHeading, hb, hnl, hlen]
    · have hset : cfg.headingStyle.IsSetext = true := by
        simpa [headingIsSetext, hb, hnl, Nat.not_lt.mpr hlen] using h
      simp [renderHeading, hb, hnl, Nat.not_lt.mpr hlen, hset]

/-- Witness for C10: a level-2 single-line heading with children under the
Setext style is dispatched to the Setext form, and 2 is inside the
three-element underline table. -/
theorem C10_witness :
    headingIsSetext ⟨.Setext, 0, 3, []⟩ 2 [⟨0, 3⟩] true = true ∧
    (2 < setextUnderlineChars.length ∧
      ∀ (rs : RenderState) (entering hasNext : Bool),
        renderHeading ⟨.Setext, 0, 3, []⟩ 2 [⟨0, 3⟩] true rs entering hasNext =
          renderSetextHeading ⟨.Setext, 0, 3, []⟩ 2 [⟨0, 3⟩] rs entering
            hasNext) :=
  ⟨by decide,
    C10_setext_index_in_bounds ⟨.Setext, 0, 3, []⟩ 2 [⟨0, 3⟩] true (by decide)⟩

theorem foldl_max_init (l : List Nat) :
    ∀ a : Nat, l.foldl max a = max a (l.foldl max 0) := by
  induction l with
  | nil => intro a; simp
  | cons x t ih =>
    intro a
    simp only [List.foldl_cons]
    rw [ih (max a x), ih (max 0 x)]
    omega

theorem setext_width_eq (lines : List Segment) :
    lines.foldl (fun w line => if line.len > w then line.len else w) 3 =
      max 3 ((lines.map Segment.len).foldl max 0) := by
  have hf : (fun (w : Nat) (line : Segment) =>
      if line.len > w then line.len else w) =
      fun (w : Nat) (line : Segment) => max w line.len := by
    funext w line
    split <;> omega
  rw [hf, ← List.foldl_map]
  exact foldl_max_init _ 3

/-- C7: the thematic-break entry phase emits exactly max(L, 3) repetitions
of the glyph picked by the configured style index: hyphen for 0, asterisk
for 1, underscore for 2. -/
theorem C7_thematic_break_entry (cfg : Config) (rs : RenderState)
    (hasNext : Bool) (h : rs.sinkErr = none) :
    (renderThematicBreak cfg rs true hasNext).1 =
      List.replicate (max cfg.thematicBreakLength 3)
        (if cfg.thematicBreakStyle.val = 0 then '-'
         else if cfg.thematicBreakStyle.val = 1 then '*' else '_') := by
  have hlen : (if cfg.thematicBreakLength < ThematicBreakLengthMinimum then
      ThematicBreakLengthMinimum else cfg.thematicBreakLength) =
      max cfg.thematicBreakLength 3 := by
    simp only [ThematicBreakLengthMinimum]
    split <;> omega
  rcases hsty : cfg.thematicBreakStyle with ⟨v, hv⟩
  interval_cases v <;>
    simp [renderThematicBreak, writerWrite, bufWrite, h, hlen, hsty,
      breakChars, strRepeat_singleton]

/-- Witness for C7: style index 1 (asterisk) and configured length 1, which
is clamped up to 3. -/
theorem C7_witness :
    (cleanState.sinkErr = none) ∧
    (renderThematicBreak ⟨.ATX, 1, 1, []⟩ cleanState true false).1 =
      List.replicate (max 1 3)
        (if (1 : Fin 3).val = 0 then '-'
         else if (1 : Fin 3).val = 1 then '*' else '_') :=
  ⟨rfl, C7_thematic_break_entry ⟨.ATX, 1, 1, []⟩ cleanState false rfl⟩

/-- C5: an ATX-rendered heading emits level-many hash characters on entry,
followed by one space exactly when the heading has children; on exit it
emits a space and the same hash run exactly when the surround style is
configured, and then only the block separator. -/
theorem C5_atx_heading_output (cfg : Config) (level : Nat)
    (hasChildren : Bool) (rs : RenderState) (hasNext : Bool)
    (h : rs.sinkErr = none) :
    (renderATXHeading cfg level hasChildren rs true hasNext).1 =
      List.replicate level '#' ++ (if hasChildren then [' '] else []) ∧
    (renderATXHeading cfg level hasChildren rs false hasNext).1 =
      (if cfg.headingStyle = .ATXSurround then ' ' :: List.replicate level '#'
       else []) ++ (if hasNext then ['\n', '\n'] else []) := by
  constructor
  · cases hasChildren <;>
      simp [renderATXHeading, fprint, bufWrite, h, strRepeat_singleton]
  · simp only [renderATXHeading, Bool.false_eq_true, if_false]
    split <;>
      simp [renderBlockSeparator, fprint, writerWrite, bufWrite, h,
        strRepeat_singleton] <;>
      split <;> simp

/-- Witness for C5: a level-3 heading with children under the surround
style. -/
theorem C5_witness :
    (cleanState.sinkErr = none) ∧
    ((renderATXHeading ⟨.ATXSurround, 0, 3, []⟩ 3 true cleanState true
        true).1 =
      List.replicate 3 '#' ++ (if (true : Bool) then [' '] else []) ∧
    (renderATXHeading ⟨.ATXSurround, 0, 3, []⟩ 3 true cleanState false
        true).1 =
      (if (⟨.ATXSurround, 0, 3, []⟩ : Config).headingStyle = .ATXSurround
       then ' ' :: List.replicate 3 '#' else []) ++
      (if (true : Bool) then ['\n', '\n'] else [])) :=
  ⟨rfl, C5_atx_heading_output ⟨.ATXSurround, 0, 3, []⟩ 3 true cleanState true
    rfl⟩

/-- C6: a Setext-rendered heading emits nothing on entry; on exit it emits
a newline and an underline of equals signs for level 1 or hyphens for
level 2, of width exactly 3 unless the full-width style is configured, in
which case the width is the maximum byte length of the source lines and
never below 3; and the document with the single level-1 heading Title under
the plain Setext style renders to Title, a newline, three equals signs and
a final newline. -/
theorem C6_setext_heading_output (cfg : Config) (level : Nat)
    (lines : List Segment) (rs : RenderState) (hasNext : Bool)
    (h : rs.sinkErr = none) (h1 : 1 ≤ level) (h2 : level ≤ 2) :
    (renderSetextHeading cfg level lines rs true hasNext).1 = [] ∧
    (renderSetextHeading cfg level lines rs false hasNext).1 =
      '\n' :: (List.replicate
          (if cfg.headingStyle = .FullWidthSetext then
            max 3 ((lines.map Segment.len).foldl max 0)
          else 3)
          (if level = 1 then '=' else '-') ++
        (if hasNext then ['\n', '\n'] else [])) ∧
    (render ⟨.Setext, 0, 3, []⟩ ['T', 'i', 't', 'l', 'e']
        (.document [.heading 1 [⟨0, 5⟩] [.text ⟨0, 5⟩ false]])).1 =
      ['T', 'i', 't', 'l', 'e', '\n', '=', '=', '=', '\n'] := by
  refine ⟨?_, ?_, ?_⟩
  · simp [renderSetextHeading]
  · have huc : setextUnderlineChars.getD level [] =
        [if level = 1 then '=' else '-'] := by
      interval_cases level <;> simp [setextUnderlineChars]
    simp only [renderSetextHeading, Bool.false_eq_true, if_false, huc,
      setext_width_eq]
    split <;>
      simp_all [renderBlockSeparator, fprint, writerWrite, bufWrite,
        strRepeat_singleton] <;>
      split <;> simp
  · simp [render, walkNode, walkChildren, dispatch, Node.childNodes,
      renderDocument, renderHeading, renderSetextHeading, renderText,
      renderBlockSeparator, writerWrite, fprint, bufWrite, cleanState,
      initWriter, Segment.value, HeadingStyle.IsSetext, setextUnderlineChars,
      strRepeat]

/-- Witness for C6: a level-1 two-line heading under the full-width style,
with lines of byte lengths 7 and 2. -/
theorem C6_witness :
    (cleanState.sinkErr = none ∧ 1 ≤ 1 ∧ 1 ≤ 2) ∧
    ((renderSetextHeading ⟨.FullWidthSetext, 0, 3, []⟩ 1 [⟨0, 7⟩, ⟨7, 9⟩]
        cleanState true false).1 = [] ∧
    (renderSetextHeading ⟨.FullWidthSetext, 0, 3, []⟩ 1 [⟨0, 7⟩, ⟨7, 9⟩]
        cleanState false false).1 =
      '\n' :: (List.replicate
          (if (⟨.FullWidthSetext, 0, 3, []⟩ : Config).headingStyle =
              .FullWidthSetext then
            max 3 ((([⟨0, 7⟩, ⟨7, 9⟩] : List Segment).map
              Segment.len).foldl max 0)
          else 3)
          (if 1 = 1 then '=' else '-') ++
        (if (false : Bool) then ['\n', '\n'] else [])) ∧
    (render ⟨.Setext, 0, 3, []⟩ ['T', 'i', 't', 'l', 'e']
        (.document [.heading 1 [⟨0, 5⟩] [.text ⟨0, 5⟩ false]])).1 =
      ['T', 'i', 't', 'l', 'e', '\n', '=', '=', '=', '\n']) :=
  ⟨⟨rfl, le_rfl, by omega⟩,
    C6_setext_heading_output ⟨.FullWidthSetext, 0, 3, []⟩ 1 [⟨0, 7⟩, ⟨7, 9⟩]
      cleanState false rfl le_rfl (by omega)⟩

/-- C4: the fenced-code-block handler writes the three-backtick fence
unconditionally at the start of both the entry and the exit call; on entry
it is followed by the language tag when present, a newline and the literal
lines verbatim; on exit only the block separator follows the fence. -/
theorem C4_fenced_code_block_output (source : Bytes)
    (language : Option Segment) (lines : List Segment) (rs : RenderState)
    (hasNext : Bool) (h : rs.sinkErr = none) :
    (renderFencedCodeBlock source language lines rs true hasNext).1 =
      ['`', '`', '`'] ++
        (match language with
         | some lang => lang.value source
         | none => []) ++ ['\n'] ++
        (lines.map (fun line => line.value source)).flatten ∧
    (renderFencedCodeBlock source language lines rs false hasNext).1 =
      ['`', '`', '`'] ++ (if hasNext then ['\n', '\n'] else []) := by
  constructor
  · cases language with
    | none =>
      simp [renderFencedCodeBlock, writerWrite, bufWrite, h,
        writeRawLines_of_none]
    | some lang =>
      simp [renderFencedCodeBlock, writerWrite, bufWrite, h,
        writeRawLines_of_none]
  · simp only [renderFencedCodeBlock, Bool.false_eq_true, if_false]
    simp [renderBlockSeparator, writerWrite, bufWrite, h]
    split <;> simp

/-- Witness for C4: language tag go and the single literal line of the
fmt.Println call, then the closing fence with a following sibling. -/
theorem C4_witness :
    (cleanState.sinkErr = none) ∧
    ((renderFencedCodeBlock
        ['g', 'o', 'f', 'm', 't', '.', 'P', 'r', 'i', 'n', 't', 'l', 'n',
         '(', ')', '\n']
        (some ⟨0, 2⟩) [⟨2, 16⟩] cleanState true true).1 =
      ['`', '`', '`'] ++
        (match (some ⟨0, 2⟩ : Option Segment) with
         | some lang => lang.value
            ['g', 'o', 'f', 'm', 't', '.', 'P', 'r', 'i', 'n', 't', 'l', 'n',
             '(', ')', '\n']
         | none => []) ++ ['\n'] ++
        (([⟨2, 16⟩] : List Segment).map (fun line => line.value
            ['g', 'o', 'f', 'm', 't', '.', 'P', 'r', 'i', 'n', 't', 'l', 'n',
             '(', ')', '\n'])).flatten ∧
    (renderFencedCodeBlock
        ['g', 'o', 'f', 'm', 't', '.', 'P', 'r', 'i', 'n', 't', 'l', 'n',
         '(', ')', '\n']
        (some ⟨0, 2⟩) [⟨2, 16⟩] cleanState false true).1 =
      ['`', '`', '`'] ++ (if (true : Bool) then ['\n', '\n'] else [])) :=
  ⟨rfl, C4_fenced_code_block_output
    ['g', 'o', 'f', 'm', 't', '.', 'P', 'r', 'i', 'n', 't', 'l', 'n',
     '(', ')', '\n']
    (some ⟨0, 2⟩) [⟨2, 16⟩] cleanState true rfl⟩

/-- C9: heading markers are written straight to the buffered stream and
leave the last-write memory unchanged: the ATX entry hash run and space,
the surround closing hashes and the Setext underline all preserve the
defaultWriter state, and after the Setext heading Title renders, the
last-write memory holds the text Title even though the underline was
emitted last. -/
theorem C9_markers_bypass_writer (cfg : Config) (level : Nat)
    (hasChildren : Bool) (lines : List Segment) (rs : RenderState)
    (hasNext : Bool) :
    (renderATXHeading cfg level hasChildren rs true hasNext).2.1.d = rs.d ∧
    (renderATXHeading cfg level hasChildren rs false false).2.1.d = rs.d ∧
    (renderSetextHeading cfg level lines rs false false).2.1.d = rs.d ∧
    (walkNode ⟨.Setext, 0, 3, []⟩ ['T', 'i', 't', 'l', 'e']
        (.heading 1 [⟨0, 5⟩] [.text ⟨0, 5⟩ false]) false cleanState).1 =
      ['T', 'i', 't', 'l', 'e', '\n', '=', '=', '='] ∧
    (walkNode ⟨.Setext, 0, 3, []⟩ ['T', 'i', 't', 'l', 'e']
        (.heading 1 [⟨0, 5⟩] [.text ⟨0, 5⟩ false]) false
        cleanState).2.1.d.lastWriteBytes = ['T', 'i', 't', 'l', 'e'] := by
  refine ⟨?_, ?_, ?_, ?_, ?_⟩
  · cases hasChildren <;> simp [renderATXHeading, fprint]
  · simp only [renderATXHeading, Bool.false_eq_true, if_false]
    split <;> simp [renderBlockSeparator, fprint]
  · simp [renderSetextHeading, renderBlockSeparator, fprint]
  · simp [walkNode, walkChildren, dispatch, Node.childNodes, renderHeading,
      renderSetextHeading, renderText, renderBlockSeparator, writerWrite,
      fprint, bufWrite, cleanState, initWriter, Segment.value,
      HeadingStyle.IsSetext, setextUnderlineChars, strRepeat]
  · simp [walkNode, walkChildren, dispatch, Node.childNodes, renderHeading,
      renderSetextHeading, renderText, renderBlockSeparator, writerWrite,
      fprint, bufWrite, cleanState, initWriter, Segment.value,
      HeadingStyle.IsSetext, setextUnderlineChars, strRepeat]

theorem dispatch_entry_hasNext (cfg : Config) (source : Bytes) (n : Node)
    (hn hn2 : Bool) (rs : RenderState) :
    dispatch cfg source n hn true rs = dispatch cfg source n hn2 true rs := by
  cases n <;> rfl

theorem dispatch_exit_sep (cfg : Config) (source : Bytes) (n : Node)
    (rs : RenderState) (h : rs.sinkErr = none)
    (hb : separatedBlock n = true) :
    (dispatch cfg source n true false rs).1 =
      (dispatch cfg source n false false rs).1 ++ ['\n', '\n'] := by
  cases n with
  | document cs => simp [separatedBlock] at hb
  | text seg softLineBreak => simp [separatedBlock] at hb
  | heading level lines cs =>
    have hatx : (renderATXHeading cfg level (!cs.isEmpty) rs false true).1 =
        (renderATXHeading cfg level (!cs.isEmpty) rs false false).1 ++
          ['\n', '\n'] := by
      simp only [renderATXHeading, Bool.false_eq_true, if_false]
      split <;>
        simp [renderBlockSeparator, writerWrite, bufWrite, fprint, h]
    have hsetext : (renderSetextHeading cfg level lines rs false true).1 =
        (renderSetextHeading cfg level lines rs false false).1 ++
          ['\n', '\n'] := by
      simp [renderSetextHeading, renderBlockSeparator, writerWrite, bufWrite,
        fprint, h]
    simp only [dispatch, renderHeading]
    repeat' split
    all_goals first
      | exact hatx
      | exact hsetext
  | paragraph cs =>
    simp [dispatch, renderParagraph, renderBlockSeparator, writerWrite,
      bufWrite, h]
  | thematicBreak =>
    simp [dispatch, renderThematicBreak, renderBlockSeparator, writerWrite,
      bufWrite, h]
  | codeBlock lines =>
    simp [dispatch, renderCodeBlock, renderBlockSeparator, writerWrite,
      bufWrite, h]
  | fencedCodeBlock language lines =>
    simp [dispatch, renderFencedCodeBlock, renderBlockSeparator, writerWrite,
      bufWrite, h]
  | htmlBlock lines closureLine =>
    cases closureLine <;>
      simp [dispatch, renderHTMLBlock, renderBlockSeparator, writerWrite,
        bufWrite, h]

/-- C3: every block-level node that closes with the separator writes a
blank line of exactly two newline characters after its own content exactly
when it has a following sibling, and nothing otherwise; in particular the
document with sibling paragraphs A then B renders with exactly one blank
line between them and none after B. -/
theorem C3_block_separator (cfg : Config) (source : Bytes) (n : Node)
    (rs : RenderState) (h : rs.sinkErr = none)
    (hb : separatedBlock n = true) :
    (walkNode cfg source n true rs).1 =
      (walkNode cfg source n false rs).1 ++ ['\n', '\n'] ∧
    (render NewConfig ['A', 'B']
        (.document [.paragraph [.text ⟨0, 1⟩ false],
          .paragraph [.text ⟨1, 2⟩ false]])).1 =
      ['A', '\n', '\n', 'B', '\n'] := by
  constructor
  · obtain ⟨herr1, hsink1, _⟩ := dispatch_invariants cfg source n false true rs
    obtain ⟨herr2, hsink2, _⟩ := walkChildren_invariants cfg source
      n.childNodes (dispatch cfg source n false true rs).2.1
    have hs2 : (walkChildren cfg source n.childNodes
        (dispatch cfg source n false true rs).2.1).2.1.sinkErr = none := by
      rw [hsink2, hsink1, h]
    simp only [walkNode, dispatch_entry_hasNext cfg source n true false rs,
      herr1, herr2]
    rw [dispatch_exit_sep cfg source n _ hs2 hb]
    simp
  · simp [render, walkNode, walkChildren, dispatch, Node.childNodes,
      renderDocument, renderParagraph, renderText, renderBlockSeparator,
      writerWrite, fprint, bufWrite, cleanState, initWriter, Segment.value,
      NewConfig]

/-- Witness for C3 at a thematic-break node. -/
theorem C3_witness :
    (cleanState.sinkErr = none ∧ separatedBlock .thematicBreak = true) ∧
    ((walkNode NewConfig [] .thematicBreak true cleanState).1 =
      (walkNode NewConfig [] .thematicBreak false cleanState).1 ++
        ['\n', '\n'] ∧
    (render NewConfig ['A', 'B']
        (.document [.paragraph [.text ⟨0, 1⟩ false],
          .paragraph [.text ⟨1, 2⟩ false]])).1 =
      ['A', '\n', '\n', 'B', '\n']) :=
  ⟨⟨rfl, rfl⟩, C3_block_separator NewConfig [] .thematicBreak cleanState rfl
    rfl⟩

/-- C2 counterexample: the non-empty document holding the paragraph A and
then an empty heading renders to bytes ending in a hash, not in a newline,
because the hash marker bypasses the last-write memory the document exit
inspects. -/
theorem C2_counterexample :
    (render NewConfig ['A']
        (.document [.paragraph [.text ⟨0, 1⟩ false], .heading 1 [] []])).1 =
      ['A', '\n', '\n', '#'] ∧
    ['A', '\n', '\n', '#'].getLast? ≠ some '\n' := by
  constructor
  · simp [render, walkNode, walkChildren, dispatch, Node.childNodes,
      renderDocument, renderParagraph, renderText, renderHeading,
      renderATXHeading, renderBlockSeparator, writerWrite, fprint, bufWrite,
      cleanState, initWriter, Segment.value, NewConfig, strRepeat]
  · decide

/-- C2 amended: on document exit a single newline is written through the
sink exactly when nothing was ever written through the sink or the last
byte of the most recent sink write is not a newline; the rendered bytes of
a document are its children bytes followed by that conditional newline, so
the output ends in exactly one newline whenever the final bytes of the
document went through the sink, but heading markers written past the sink
can leave the output without this guarantee. -/
theorem C2_amended_document_exit (cfg : Config) (source : Bytes)
    (cs : List Node) (hn : Bool) (rs : RenderState) (h : rs.sinkErr = none) :
    (walkNode cfg source (.document cs) hn rs).1 =
      (walkChildren cfg source cs rs).1 ++
        (if (walkChildren cfg source cs rs).2.1.d.lastWriteLen = 0 ∨
            (walkChildren cfg source cs rs).2.1.d.lastWriteBytes.getD
              ((walkChildren cfg source cs rs).2.1.d.lastWriteLen - 1) '\x00'
              ≠ '\n'
         then ['\n'] else []) := by
  obtain ⟨herr2, hsink2, _⟩ := walkChildren_invariants cfg source cs rs
  have hs2 : (walkChildren cfg source cs rs).2.1.sinkErr = none := by
    rw [hsink2, h]
  have hentry : dispatch cfg source (.document cs) hn true rs =
      ([], rs, none) := by
    simp [dispatch, renderDocument]
  have hexit : dispatch cfg source (.document cs) hn false
      (walkChildren cfg source cs rs).2.1 =
      (if (walkChildren cfg source cs rs).2.1.d.lastWriteLen = 0 ∨
          (walkChildren cfg source cs rs).2.1.d.lastWriteBytes.getD
            ((walkChildren cfg source cs rs).2.1.d.lastWriteLen - 1) '\x00'
            ≠ '\n'
       then (['\n'],
        { (walkChildren cfg source cs rs).2.1 with d := ⟨['\n'], 1⟩ }, none)
       else ([], (walkChildren cfg source cs rs).2.1, none)) := by
    simp only [dispatch, renderDocument, Bool.false_eq_true, if_false,
      writerWrite_of_none _ _ hs2]
    split <;> simp_all
  simp only [walkNode, hentry, Node.childNodes, herr2, hexit]
  split <;> simp_all

/-- Witness for C2 as amended, at a single-paragraph document. -/
theorem C2_amended_witness :
    (cleanState.sinkErr = none) ∧
    (walkNode NewConfig ['A'] (.document [.paragraph [.text ⟨0, 1⟩ false]])
        false cleanState).1 =
      (walkChildren NewConfig ['A'] [.paragraph [.text ⟨0, 1⟩ false]]
          cleanState).1 ++
        (if (walkChildren NewConfig ['A'] [.paragraph [.text ⟨0, 1⟩ false]]
              cleanState).2.1.d.lastWriteLen = 0 ∨
            (walkChildren NewConfig ['A'] [.paragraph [.text ⟨0, 1⟩ false]]
              cleanState).2.1.d.lastWriteBytes.getD
              ((walkChildren NewConfig ['A'] [.paragraph [.text ⟨0, 1⟩ false]]
                cleanState).2.1.d.lastWriteLen - 1) '\x00' ≠ '\n'
         then ['\n'] else []) :=
  ⟨rfl, C2_amended_document_exit NewConfig ['A']
    [.paragraph [.text ⟨0, 1⟩ false]] false cleanState rfl⟩

/-- C8 counterexample: with the sink unwritable from the start, rendering
the two-paragraph document still returns a nil handler error, the
traversal runs all the way to the document-exit newline write instead of
aborting at the first failed write, and nothing reaches the output. -/
theorem C8_counterexample :
    (walkNode NewConfig ['A', 'B']
        (.document [.paragraph [.text ⟨0, 1⟩ false],
          .paragraph [.text ⟨1, 2⟩ false]]) false
        ⟨some (), initWriter⟩).2.2 = none ∧
    (walkNode NewConfig ['A', 'B']
        (.document [.paragraph [.text ⟨0, 1⟩ false],
          .paragraph [.text ⟨1, 2⟩ false]]) false
        ⟨some (), initWriter⟩).1 = [] ∧
    (walkNode NewConfig ['A', 'B']
        (.document [.paragraph [.text ⟨0, 1⟩ false],
          .paragraph [.text ⟨1, 2⟩ false]]) false
        ⟨some (), initWriter⟩).2.1.d.lastWriteBytes = ['\n'] := by
  refine ⟨?_, ?_, ?_⟩ <;>
    simp [walkNode, walkChildren, dispatch, Node.childNodes, renderDocument,
      renderParagraph, renderText, renderBlockSeparator, writerWrite, fprint,
      bufWrite, initWriter, Segment.value, NewConfig]

/-- C8 amended: write failures are not surfaced by the renderer: the
defaultWriter discards the error of the underlying stream and every handler
returns a nil error, so even with the sink failing on every write the walk
completes with a nil outcome and simply emits nothing. -/
theorem C8_amended_write_failures_ignored (cfg : Config) (source : Bytes)
    (n : Node) (hasNext : Bool) (d : DefaultWriter) :
    (walkNode cfg source n hasNext ⟨some (), d⟩).2.2 = none ∧
    (walkNode cfg source n hasNext ⟨some (), d⟩).1 = [] := by
  obtain ⟨h1, _, h3⟩ := walkNode_invariants cfg source n hasNext ⟨some (), d⟩
  exact ⟨h1, h3 rfl⟩

end GoldmarkMarkdown
